import Mathlib

/-!
Verification of the serial-pcap capture/replay engine.

This file gives a shallow embedding of the Rust sources:
* `src/lib.rs`   — `SerialPacketWriter::write_packet_time`,
  `SerialPacketReader::{next_packet, read_bytes, fill_buffer, extend_one_pkt,
  get_buffer}`;
* `src/main.rs`  — `read_uart`, `read_muxed_uart`, `record_streams`;
* `rp-rs422-cap/src/x328_bus/mod.rs` — `UartBuf`.

Bytes are modelled as `Nat` (the Rust code reads `u8`), timestamps as `Nat`.
The pcap container and the etherparse IPv4/UDP serialization are external
crates; a stored packet is modelled structurally: the writer only ever builds
IPv4/UDP frames (`Ipv4UdpPacket`), while the reader may also face stored data
that parses without a UDP transport, or fails to parse, or a corrupt container
record — captured by `PcapData` / `PcapItem`.  A serialized IPv4+UDP frame is
20 + 8 = 28 header bytes plus the payload, which fixes every stored length.
Rust panics (assert, slice-index panics) are modelled as a distinct
`panicked` outcome (or `Option.none` for `UartBuf`).

Recursions that the Rust code drives by consuming a buffer are written with an
explicit fuel argument equal to the buffer length, so that every definition
reduces in the kernel.
-/

/-- `MAX_PACKET_LEN` from `lib.rs`: maximum size of a packet in the pcap file. -/
def MAX_PACKET_LEN : Nat := 200

/-- The two logical channels (spec: `Primary` = `Ctrl`, `Secondary` = `Node`). -/
inductive UartTxChannel
  | Ctrl
  | Node
deriving DecidableEq

/-- `UartTxChannel::Ctrl as u16` (discriminant 422 in `lib.rs`). -/
def CTRL : Nat := 422

/-- `UartTxChannel::Node as u16` (discriminant 1422 in `lib.rs`). -/
def NODE : Nat := 1422

/-- Modelled from the spec: the value of the resynchronization marker constant
`TRIG_BYTE`, which is declared in the `serial_pcap` library crate but whose
definition is not among the sources here (only its importers are).  The spec
reserves one byte value as the marker; the capture tool's comment
(`// \n == Trigger event` in `main.rs`) identifies it as the newline byte, and
the replay tool splits decoded payloads on it, so its top bit is clear. -/
def TRIG_BYTE : Nat := 0x0a

/-- Splitting a list into consecutive chunks of at most `n` elements, the
model of Rust `slice::chunks(n)`.  Recursion via fuel (`chunksOfGo n l.length l`)
so the definition reduces in the kernel; `n = 0` never occurs (Rust panics). -/
def chunksOfGo (n : Nat) : Nat → List α → List (List α)
  | 0, _ => []
  | _, [] => []
  | fuel + 1, a :: l => (a :: l).take n :: chunksOfGo n fuel ((a :: l).drop n)

/-- Rust `data.chunks(n)` as a list of chunks. -/
def chunksOf (n : Nat) (l : List α) : List (List α) :=
  chunksOfGo n l.length l

/-- The structural model of one serialized IPv4/UDP frame, as built by
`PacketBuilder::ipv4(ip.0, ip.1, 254).udp(ports.0, ports.1)` over a payload. -/
structure Ipv4UdpPacket where
  src_ip : Nat × Nat × Nat × Nat
  dst_ip : Nat × Nat × Nat × Nat
  ttl : Nat
  src_port : Nat
  dst_port : Nat
  payload : List Nat
deriving DecidableEq

/-- What the stored bytes of a pcap record can decode to: a well-formed
IPv4/UDP frame (all the writer produces), an IP packet without a UDP
transport, or bytes `SlicedPacket::from_ip` rejects. -/
inductive PcapData
  | udp (pkt : Ipv4UdpPacket)
  | noUdpTransport (len : Nat)
  | unparseable (len : Nat)
deriving DecidableEq

/-- Length in bytes of the stored record data (IPv4 20 + UDP 8 + payload). -/
def PcapData.byteLen : PcapData → Nat
  | .udp p => 28 + p.payload.length
  | .noUdpTransport n => n
  | .unparseable n => n

/-- `rpcap::CapturedPacket`: capture time, stored data, and `orig_len`
(the original on-wire length; the container permits storing fewer bytes
than `orig_len` when a record was truncated to the snap length). -/
structure CapturedPacket where
  time : Nat
  data : PcapData
  orig_len : Nat
deriving DecidableEq

/-- One read from the pcap container: a record, or a framing error
(`PcapReader::next` returning `Err`). -/
inductive PcapItem
  | pkt (p : CapturedPacket)
  | readErr
deriving DecidableEq

/-- The per-channel source/destination IPs and ports chosen in
`write_packet_time`: `Ctrl ↦ ((127.0.0.1, 127.0.0.2), (CTRL, NODE))`,
`Node ↦ ((127.0.0.2, 127.0.0.1), (NODE, CTRL))`. -/
def channelAddrs :
    UartTxChannel → ((Nat × Nat × Nat × Nat) × (Nat × Nat × Nat × Nat)) × (Nat × Nat)
  | .Ctrl => (((127, 0, 0, 1), (127, 0, 0, 2)), (CTRL, NODE))
  | .Node => (((127, 0, 0, 2), (127, 0, 0, 1)), (NODE, CTRL))

/-- The pcap record built for one chunk: the IPv4/UDP frame with TTL 254 and
the channel's address/port pair, with `orig_len` equal to the stored length
(the writer stores the whole frame it just built: `orig_len: buf.len()`). -/
def buildPacket (ch : UartTxChannel) (time : Nat) (data : List Nat) : CapturedPacket :=
  { time := time
    data := .udp
      { src_ip := (channelAddrs ch).1.1
        dst_ip := (channelAddrs ch).1.2
        ttl := 254
        src_port := (channelAddrs ch).2.1
        dst_port := (channelAddrs ch).2.2
        payload := data }
    orig_len := 28 + data.length }

/-- `SerialPacketWriter::write_packet_time`: chunk `data` into pieces of at
most `MAX_PACKET_LEN - 32` bytes and append one record per chunk, all with the
same channel and timestamp.  The writer state is the list of records appended
to the file so far. -/
def write_packet_time (file : List PcapItem) (data : List Nat) (ch : UartTxChannel)
    (time : Nat) : List PcapItem :=
  file ++ (chunksOf (MAX_PACKET_LEN - 32) data).map (fun c => .pkt (buildPacket ch time c))

/-- A sequence of `write_packet_time` calls. -/
def writeAll (file : List PcapItem) : List (UartTxChannel × List Nat × Nat) → List PcapItem
  | [] => file
  | (ch, data, t) :: ws => writeAll (write_packet_time file data ch t) ws

/-- The payload stored in a record (writer-produced records are always
`.pkt` with a UDP frame). -/
def recPayload : PcapItem → List Nat
  | .pkt { data := .udp u, .. } => u.payload
  | _ => []

/-- Concatenation of the byte runs written for channel `ch`, in call order. -/
def channelBytes (ch : UartTxChannel) (ws : List (UartTxChannel × List Nat × Nat)) :
    List Nat :=
  (ws.filter (fun w => w.1 == ch)).flatMap (fun w => w.2.1)

section ChunkLemmas

theorem chunksOfGo_flatten (n : Nat) (hn : 0 < n) :
    ∀ fuel (l : List α), l.length ≤ fuel → (chunksOfGo n fuel l).flatten = l := by
  intro fuel
  induction fuel with
  | zero =>
    intro l hl
    cases l with
    | nil => rfl
    | cons a l => simp at hl
  | succ fuel ih =>
    intro l hl
    cases l with
    | nil => rfl
    | cons a l =>
      simp only [chunksOfGo, List.flatten_cons]
      rw [ih ((a :: l).drop n) ?_, List.take_append_drop]
      rw [List.length_drop]
      simp only [List.length_cons] at hl ⊢
      omega

theorem chunksOf_flatten (n : Nat) (hn : 0 < n) (l : List α) :
    (chunksOf n l).flatten = l :=
  chunksOfGo_flatten n hn l.length l (Nat.le_refl _)

theorem chunksOfGo_length (n : Nat) (hn : 0 < n) :
    ∀ fuel (l : List α), l.length ≤ fuel →
      (chunksOfGo n fuel l).length = (l.length + (n - 1)) / n := by
  intro fuel
  induction fuel with
  | zero =>
    intro l hl
    cases l with
    | nil => simp [chunksOfGo, Nat.div_eq_of_lt, hn, Nat.sub_lt hn]
    | cons a l => simp at hl
  | succ fuel ih =>
    intro l hl
    cases l with
    | nil => simp [chunksOfGo, Nat.div_eq_of_lt, hn, Nat.sub_lt hn]
    | cons a l =>
      simp only [chunksOfGo, List.length_cons]
      rw [ih ((a :: l).drop n) ?_]
      · rw [List.length_drop]
        simp only [List.length_cons]
        rcases Nat.le_total (l.length + 1) n with h | h
        · have h1 : l.length + 1 - n = 0 := by omega
          rw [h1]
          have h2 : (0 + (n - 1)) / n = 0 := Nat.div_eq_of_lt (by omega)
          rw [h2]
          have h3 : (l.length + 1 + (n - 1)) / n = 1 := by
            rw [Nat.div_eq_sub_div hn (by omega), Nat.div_eq_of_lt (by omega)]
          omega
        · have h4 : l.length + 1 - n + (n - 1) + n = l.length + 1 + (n - 1) := by omega
          rw [← h4, Nat.add_div_right _ hn]
      · rw [List.length_drop]
        simp only [List.length_cons] at hl ⊢
        omega

theorem chunksOf_length (n : Nat) (hn : 0 < n) (l : List α) :
    (chunksOf n l).length = (l.length + (n - 1)) / n :=
  chunksOfGo_length n hn l.length l (Nat.le_refl _)

theorem chunksOfGo_mem (n : Nat) (hn : 0 < n) :
    ∀ fuel (l : List α) c, l.length ≤ fuel → c ∈ chunksOfGo n fuel l →
      c ≠ [] ∧ c.length ≤ n := by
  intro fuel
  induction fuel with
  | zero =>
    intro l c hl hc
    cases l with
    | nil => simp [chunksOfGo] at hc
    | cons a l => simp at hl
  | succ fuel ih =>
    intro l c hl hc
    cases l with
    | nil => simp [chunksOfGo] at hc
    | cons a l =>
      simp only [chunksOfGo, List.mem_cons] at hc
      rcases hc with hc | hc
      · subst hc
        refine ⟨?_, by simp⟩
        cases n with
        | zero => omega
        | succ n => simp
      · refine ih ((a :: l).drop n) c ?_ hc
        rw [List.length_drop]
        simp only [List.length_cons] at hl ⊢
        omega

theorem chunksOf_mem (n : Nat) (hn : 0 < n) (l : List α) (c : List α)
    (hc : c ∈ chunksOf n l) : c ≠ [] ∧ c.length ≤ n :=
  chunksOfGo_mem n hn l.length l c (Nat.le_refl _) hc

end ChunkLemmas

/-- One decoded record, `SerialPacket` from `lib.rs`. -/
structure SerialPacket where
  ch : UartTxChannel
  data : List Nat
  time : Nat
deriving DecidableEq

/-- The error cases of `next_packet`: a pcap container read error, a packet
`SlicedPacket::from_ip` cannot slice, a packet without a UDP transport
header, and an unrecognized UDP source port. -/
inductive DecodeError
  | pcapRead
  | sliceFailed
  | noUdpHeader
  | badPort (p : Nat)
deriving DecidableEq

/-- Outcome of a fallible reader operation: success, a propagated `Err`,
or a Rust panic (the `assert_eq!` in `next_packet`). -/
inductive RResult (α : Type)
  | ok (val : α)
  | fail (e : DecodeError)
  | panicked
deriving DecidableEq

/-- `SerialPacketReader`: the not-yet-consumed pcap items and the two
per-channel accumulation buffers. -/
structure SerialPacketReader where
  pcap : List PcapItem
  ctrl_buf : List Nat
  node_buf : List Nat
deriving DecidableEq

/-- `SerialPacketReader::get_buffer`. -/
def SerialPacketReader.get_buffer (r : SerialPacketReader) : UartTxChannel → List Nat
  | .Ctrl => r.ctrl_buf
  | .Node => r.node_buf

/-- Writing back the buffer selected by `get_buffer` (the Rust code mutates
it through the returned `&mut BytesMut`). -/
def SerialPacketReader.set_buffer (r : SerialPacketReader) (ch : UartTxChannel)
    (v : List Nat) : SerialPacketReader :=
  match ch with
  | .Ctrl => { r with ctrl_buf := v }
  | .Node => { r with node_buf := v }

/-- `SerialPacketReader::next_packet`: pull one container record; `Ok(None)`
at end of file; assert `orig_len == data.len()` (panic on mismatch); slice
the stored bytes; find the UDP header; map the UDP source port to a channel,
accepting the legacy port 1442 as `Node`. -/
def SerialPacketReader.next_packet (r : SerialPacketReader) :
    RResult (Option SerialPacket) × SerialPacketReader :=
  match r.pcap with
  | [] => (.ok none, r)
  | .readErr :: rest => (.fail .pcapRead, { r with pcap := rest })
  | .pkt p :: rest =>
    let r₂ : SerialPacketReader := { r with pcap := rest }
    if p.orig_len = p.data.byteLen then
      match p.data with
      | .unparseable _ => (.fail .sliceFailed, r₂)
      | .noUdpTransport _ => (.fail .noUdpHeader, r₂)
      | .udp u =>
        if u.src_port = CTRL then
          (.ok (some { ch := .Ctrl, data := u.payload, time := p.time }), r₂)
        else if u.src_port = NODE then
          (.ok (some { ch := .Node, data := u.payload, time := p.time }), r₂)
        else if u.src_port = 1442 then
          (.ok (some { ch := .Node, data := u.payload, time := p.time }), r₂)
        else (.fail (.badPort u.src_port), r₂)
    else (.panicked, r₂)

/-- `SerialPacketReader::extend_one_pkt`: decode one record and append its
payload to the buffer of its channel; `false` at end of file. -/
def SerialPacketReader.extend_one_pkt (r : SerialPacketReader) :
    RResult (Bool × SerialPacketReader) :=
  match r.next_packet with
  | (.ok none, r₂) => .ok (false, r₂)
  | (.ok (some pkt), r₂) => .ok (true, r₂.set_buffer pkt.ch (r₂.get_buffer pkt.ch ++ pkt.data))
  | (.fail e, _) => .fail e
  | (.panicked, _) => .panicked

/-- The loop of `fill_buffer`
(`while get_buffer(ch).is_empty() && extend_one_pkt()? {}`); each iteration
that continues consumes exactly one pcap item, so `r.pcap.length` fuel is
enough, and at fuel 0 the pcap list is empty and the loop would stop anyway. -/
def SerialPacketReader.fill_bufferGo (ch : UartTxChannel) :
    Nat → SerialPacketReader → RResult SerialPacketReader
  | 0, r => .ok r
  | fuel + 1, r =>
    if (r.get_buffer ch).isEmpty then
      match r.extend_one_pkt with
      | .ok (true, r₂) => SerialPacketReader.fill_bufferGo ch fuel r₂
      | .ok (false, r₂) => .ok r₂
      | .fail e => .fail e
      | .panicked => .panicked
    else .ok r

/-- `SerialPacketReader::fill_buffer`. -/
def SerialPacketReader.fill_buffer (ch : UartTxChannel) (r : SerialPacketReader) :
    RResult SerialPacketReader :=
  SerialPacketReader.fill_bufferGo ch r.pcap.length r

/-- `SerialPacketReader::read_bytes`: fill the per-channel buffer if it is
empty, then remove and return up to `max_len` bytes from its front. -/
def SerialPacketReader.read_bytes (r : SerialPacketReader) (ch : UartTxChannel)
    (max_len : Nat) : RResult (List Nat × SerialPacketReader) :=
  match (if (r.get_buffer ch).isEmpty then r.fill_buffer ch else .ok r) with
  | .ok r₂ =>
    let buf := r₂.get_buffer ch
    let len := min max_len buf.length
    .ok (buf.take len, r₂.set_buffer ch (buf.drop len))
  | .fail e => .fail e
  | .panicked => .panicked

/-- Draining one channel through repeated `read_bytes` calls (as the test
`read_to_end` does), concatenating the returned chunks until a call returns
no bytes.  Fuel-driven; any fuel dominating the remaining records plus the
buffered bytes is enough. -/
def readToEnd (maxLen : Nat) : Nat → SerialPacketReader → UartTxChannel → RResult (List Nat)
  | 0, _, _ => .ok []
  | fuel + 1, r, ch =>
    match r.read_bytes ch maxLen with
    | .ok ([], _) => .ok []
    | .ok (bs, r₂) =>
      match readToEnd maxLen fuel r₂ ch with
      | .ok rest => .ok (bs ++ rest)
      | other => other
    | .fail e => .fail e
    | .panicked => .panicked

/-- A fresh reader over a capture file (`SerialPacketReader::new`). -/
def mkReader (file : List PcapItem) : SerialPacketReader :=
  { pcap := file, ctrl_buf := [], node_buf := [] }

section WriterLemmas

theorem writeAll_append : ∀ (ws : List (UartTxChannel × List Nat × Nat)) (file : List PcapItem),
    writeAll file ws = file ++ writeAll [] ws := by
  intro ws
  induction ws with
  | nil => intro file; simp [writeAll]
  | cons w ws ih =>
    intro file
    obtain ⟨ch, data, t⟩ := w
    show writeAll (write_packet_time file data ch t) ws
      = file ++ writeAll (write_packet_time [] data ch t) ws
    rw [ih (write_packet_time file data ch t), ih (write_packet_time [] data ch t)]
    simp [write_packet_time, List.append_assoc]

end WriterLemmas

/-- Claim C6: `write_packet_time` with empty bytes writes no record; longer
inputs are split deterministically into consecutive records of at most
`MAX_PACKET_LEN - 32` payload bytes, all with the channel's tag and the call's
timestamp, appended in order with the total payload content (hence length)
preserved; the record count is the ceiling of `len / (MAX_PACKET_LEN - 32)`,
so a run of length `3 * (MAX_PACKET_LEN - 32) + 7` gives exactly 4 records. -/
theorem write_chunking_transparency :
    (∀ file ch t, write_packet_time file [] ch t = file)
    ∧ (∀ file data ch t,
        write_packet_time file data ch t = file ++ write_packet_time [] data ch t)
    ∧ (∀ data ch t, ((write_packet_time [] data ch t).map recPayload).flatten = data)
    ∧ (∀ data ch t item, item ∈ write_packet_time [] data ch t →
        ∃ c, item = .pkt (buildPacket ch t c) ∧ c ≠ [] ∧ c.length ≤ MAX_PACKET_LEN - 32)
    ∧ (∀ (data : List Nat) ch t, (write_packet_time [] data ch t).length
        = (data.length + (MAX_PACKET_LEN - 32 - 1)) / (MAX_PACKET_LEN - 32))
    ∧ (∀ (data : List Nat) ch t, data.length = 3 * (MAX_PACKET_LEN - 32) + 7 →
        (write_packet_time [] data ch t).length = 4) := by
  have hpos : 0 < MAX_PACKET_LEN - 32 := by decide
  have hlen : ∀ (data : List Nat) ch t, (write_packet_time [] data ch t).length
      = (data.length + (MAX_PACKET_LEN - 32 - 1)) / (MAX_PACKET_LEN - 32) := by
    intro data ch t
    simp [write_packet_time, chunksOf_length _ hpos]
  refine ⟨?_, ?_, ?_, ?_, hlen, ?_⟩
  · intro file ch t
    simp [write_packet_time, chunksOf, chunksOfGo]
  · intro file data ch t
    simp [write_packet_time]
  · intro data ch t
    have h : (write_packet_time [] data ch t).map recPayload
        = chunksOf (MAX_PACKET_LEN - 32) data := by
      rw [write_packet_time, List.nil_append, List.map_map,
        show (recPayload ∘ fun c => PcapItem.pkt (buildPacket ch t c)) = id from rfl,
        List.map_id]
    rw [h]
    exact chunksOf_flatten _ hpos data
  · intro data ch t item hmem
    simp only [write_packet_time, List.nil_append, List.mem_map] at hmem
    obtain ⟨c, hc, rfl⟩ := hmem
    exact ⟨c, rfl, chunksOf_mem _ hpos _ _ hc⟩
  · intro data ch t hlen511
    rw [hlen, hlen511]
    decide

/-- Witness for C6: a concrete run of length `3 * (MAX_PACKET_LEN - 32) + 7`
produces exactly 4 records. -/
theorem write_chunking_transparency_witness :
    (List.replicate (3 * (MAX_PACKET_LEN - 32) + 7) 0).length
      = 3 * (MAX_PACKET_LEN - 32) + 7
    ∧ (write_packet_time [] (List.replicate (3 * (MAX_PACKET_LEN - 32) + 7) 0)
        UartTxChannel.Ctrl 0).length = 4 :=
  ⟨List.length_replicate _ _,
    write_chunking_transparency.2.2.2.2.2 _ UartTxChannel.Ctrl 0 (List.length_replicate _ _)⟩

/-- Claim C8: `next_packet` yields the next record in file order (`none` at
end of file), fails on a corrupt container record, on stored bytes that do
not slice, on a missing UDP transport header, and on an unknown UDP source
port; port 422 maps to `Ctrl`, 1422 to `Node`, and the legacy port 1442 is
accepted as an alias of `Node`. -/
theorem next_packet_decode_legacy_alias :
    (∀ r : SerialPacketReader, r.pcap = [] → r.next_packet = (.ok none, r))
    ∧ (∀ (r : SerialPacketReader) rest, r.pcap = .readErr :: rest →
        r.next_packet = (.fail .pcapRead, { r with pcap := rest }))
    ∧ (∀ (r : SerialPacketReader) p rest, r.pcap = .pkt p :: rest →
        p.orig_len = p.data.byteLen →
        (∀ n, p.data = .unparseable n →
          r.next_packet = (.fail .sliceFailed, { r with pcap := rest }))
        ∧ (∀ n, p.data = .noUdpTransport n →
          r.next_packet = (.fail .noUdpHeader, { r with pcap := rest }))
        ∧ (∀ u, p.data = .udp u →
            (u.src_port = 422 → r.next_packet
              = (.ok (some ⟨.Ctrl, u.payload, p.time⟩), { r with pcap := rest }))
            ∧ (u.src_port = 1422 → r.next_packet
              = (.ok (some ⟨.Node, u.payload, p.time⟩), { r with pcap := rest }))
            ∧ (u.src_port = 1442 → r.next_packet
              = (.ok (some ⟨.Node, u.payload, p.time⟩), { r with pcap := rest }))
            ∧ (u.src_port ≠ 422 → u.src_port ≠ 1422 → u.src_port ≠ 1442 →
              r.next_packet
                = (.fail (.badPort u.src_port), { r with pcap := rest })))) := by
  refine ⟨?_, ?_, ?_⟩
  · intro r h
    simp [SerialPacketReader.next_packet, h]
  · intro r rest h
    simp [SerialPacketReader.next_packet, h]
  · intro r p rest h horig
    refine ⟨?_, ?_, ?_⟩
    · intro n hd
      simp [SerialPacketReader.next_packet, h, horig, hd]
    · intro n hd
      simp [SerialPacketReader.next_packet, h, horig, hd]
    · intro u hd
      refine ⟨?_, ?_, ?_, ?_⟩
      · intro hport
        simp [SerialPacketReader.next_packet, h, horig, hd, hport, CTRL, NODE]
      · intro hport
        simp [SerialPacketReader.next_packet, h, horig, hd, hport, CTRL, NODE]
      · intro hport
        simp [SerialPacketReader.next_packet, h, horig, hd, hport, CTRL, NODE]
      · intro h1 h2 h3
        simp [SerialPacketReader.next_packet, h, horig, hd, CTRL, NODE, h1, h2, h3]

/-- Witness for C8: the legacy port 1442 decodes as a `Node` record. -/
theorem next_packet_decode_legacy_alias_witness :
    SerialPacketReader.next_packet
        ⟨[.pkt ⟨7, .udp ⟨(127, 0, 0, 2), (127, 0, 0, 1), 254, 1442, 422, [6]⟩, 29⟩], [], []⟩
      = (.ok (some ⟨.Node, [6], 7⟩), ⟨[], [], []⟩) :=
  (next_packet_decode_legacy_alias.2.2
    ⟨[.pkt ⟨7, .udp ⟨(127, 0, 0, 2), (127, 0, 0, 1), 254, 1442, 422, [6]⟩, 29⟩], [], []⟩
    ⟨7, .udp ⟨(127, 0, 0, 2), (127, 0, 0, 1), 254, 1442, 422, [6]⟩, 29⟩ [] rfl rfl).2.2
    ⟨(127, 0, 0, 2), (127, 0, 0, 1), 254, 1442, 422, [6]⟩ rfl |>.2.2.1 rfl

/-- Claim C10: `next_packet` asserts `orig_len == data.len()`.  A record whose
stored data was truncated below `orig_len` (snap-length truncation) makes it
panic rather than return a decode error or a record; every record the writer
produces stores the full frame, so on writer-produced files the assertion
never fires. -/
theorem next_packet_orig_len_assert :
    (SerialPacketReader.next_packet ⟨[.pkt ⟨0, .unparseable 200, 230⟩], [], []⟩
      = (.panicked, ⟨[], [], []⟩))
    ∧ (∀ ws item, item ∈ writeAll [] ws →
        ∃ p, item = .pkt p ∧ p.orig_len = p.data.byteLen)
    ∧ (∀ r : SerialPacketReader,
        (∀ p, PcapItem.pkt p ∈ r.pcap → p.orig_len = p.data.byteLen) →
        (r.next_packet).1 ≠ .panicked) := by
  refine ⟨by decide, ?_, ?_⟩
  · intro ws
    induction ws with
    | nil => intro item h; simp [writeAll] at h
    | cons w ws ih =>
      intro item h
      obtain ⟨ch, data, t⟩ := w
      have : writeAll [] ((ch, data, t) :: ws)
          = write_packet_time [] data ch t ++ writeAll [] ws := by
        show writeAll (write_packet_time [] data ch t) ws = _
        exact writeAll_append ws _
      rw [this, List.mem_append] at h
      rcases h with h | h
      · simp only [write_packet_time, List.nil_append, List.mem_map] at h
        obtain ⟨c, _, rfl⟩ := h
        exact ⟨buildPacket ch t c, rfl, rfl⟩
      · exact ih item h
  · intro r hwf
    cases hr : r.pcap with
    | nil => simp [SerialPacketReader.next_packet, hr]
    | cons item rest =>
      cases item with
      | readErr => simp [SerialPacketReader.next_packet, hr]
      | pkt p =>
        have horig : p.orig_len = p.data.byteLen := hwf p (by rw [hr]; exact List.mem_cons_self _ _)
        cases hd : p.data with
        | udp u =>
          by_cases h1 : u.src_port = CTRL
          · simp [SerialPacketReader.next_packet, hr, hd, horig, h1, CTRL, NODE]
          · by_cases h2 : u.src_port = NODE
            · simp [SerialPacketReader.next_packet, hr, hd, horig, h1, h2, CTRL, NODE]
            · by_cases h3 : u.src_port = 1442
              · simp [SerialPacketReader.next_packet, hr, hd, horig, h1, h2, h3, CTRL, NODE]
              · simp only [CTRL, NODE] at h1 h2 h3
                simp [SerialPacketReader.next_packet, hr, hd, horig, h1, h2, h3, CTRL, NODE]
        | noUdpTransport n => simp [SerialPacketReader.next_packet, hr, horig, hd]
        | unparseable n => simp [SerialPacketReader.next_packet, hr, horig, hd]

/-- Witness for C10: a concrete writer-shaped record passes the assertion. -/
theorem next_packet_orig_len_assert_witness :
    (∀ p, PcapItem.pkt p ∈ [PcapItem.pkt (buildPacket .Ctrl 0 [1])] →
      p.orig_len = p.data.byteLen)
    ∧ ((SerialPacketReader.next_packet
        ⟨[PcapItem.pkt (buildPacket .Ctrl 0 [1])], [], []⟩).1 ≠ .panicked) := by
  have h : ∀ p, PcapItem.pkt p ∈ [PcapItem.pkt (buildPacket .Ctrl 0 [1])] →
      p.orig_len = p.data.byteLen := by
    intro p hp
    simp only [List.mem_singleton, PcapItem.pkt.injEq] at hp
    subst hp
    rfl
  exact ⟨h, next_packet_orig_len_assert.2.2 ⟨[PcapItem.pkt (buildPacket .Ctrl 0 [1])], [], []⟩ h⟩

section RoundTrip

/-- The pcap file holding exactly the given decoded records (what the writer
emits: one `buildPacket` frame per record). -/
def fileOfRecs (rs : List SerialPacket) : List PcapItem :=
  rs.map (fun p => .pkt (buildPacket p.ch p.time p.data))

/-- The records produced by a sequence of writes: each run is chunked, each
chunk becomes one record with the run's channel and timestamp. -/
def recordsOf (ws : List (UartTxChannel × List Nat × Nat)) : List SerialPacket :=
  ws.flatMap (fun w => (chunksOf (MAX_PACKET_LEN - 32) w.2.1).map
    (fun c => { ch := w.1, data := c, time := w.2.2 }))

/-- Concatenated payloads of the records belonging to channel `ch`. -/
def chanJoin (ch : UartTxChannel) (rs : List SerialPacket) : List Nat :=
  (rs.filter (fun p => p.ch == ch)).flatMap (fun p => p.data)

theorem fileOfRecs_length (rs : List SerialPacket) :
    (fileOfRecs rs).length = rs.length := by
  simp [fileOfRecs]

theorem chanJoin_cons (ch : UartTxChannel) (rec : SerialPacket) (rs : List SerialPacket) :
    chanJoin ch (rec :: rs)
      = (if rec.ch == ch then rec.data else []) ++ chanJoin ch rs := by
  by_cases h : rec.ch == ch <;> simp [chanJoin, List.filter_cons, h]

theorem set_buffer_pcap (r : SerialPacketReader) (ch : UartTxChannel) (v : List Nat) :
    (r.set_buffer ch v).pcap = r.pcap := by
  cases ch <;> rfl

theorem get_set_same (r : SerialPacketReader) (ch : UartTxChannel) (v : List Nat) :
    (r.set_buffer ch v).get_buffer ch = v := by
  cases ch <;> rfl

theorem get_set_other (r : SerialPacketReader) (ch ch₂ : UartTxChannel) (v : List Nat)
    (h : ch₂ ≠ ch) : (r.set_buffer ch₂ v).get_buffer ch = r.get_buffer ch := by
  cases ch <;> cases ch₂ <;> first | rfl | exact absurd rfl h

theorem writeAll_records (ws : List (UartTxChannel × List Nat × Nat)) :
    writeAll [] ws = fileOfRecs (recordsOf ws) := by
  induction ws with
  | nil => rfl
  | cons w ws ih =>
    obtain ⟨ch, data, t⟩ := w
    show writeAll (write_packet_time [] data ch t) ws = _
    rw [writeAll_append ws _, ih]
    simp [write_packet_time, recordsOf, fileOfRecs, List.map_map, Function.comp]

theorem channelBytes_cons (ch : UartTxChannel) (w : UartTxChannel × List Nat × Nat)
    (ws : List (UartTxChannel × List Nat × Nat)) :
    channelBytes ch (w :: ws)
      = (if w.1 == ch then w.2.1 else []) ++ channelBytes ch ws := by
  by_cases h : w.1 == ch <;> simp [channelBytes, List.filter_cons, h]

theorem chanJoin_map_const (ch ch₀ : UartTxChannel) (t : Nat) (cs : List (List Nat)) :
    chanJoin ch (cs.map (fun c => ⟨ch₀, c, t⟩))
      = if ch₀ == ch then cs.flatten else [] := by
  induction cs with
  | nil => by_cases h : ch₀ == ch <;> simp [chanJoin, h]
  | cons c cs ih =>
    by_cases h : ch₀ == ch <;>
      simp only [List.map_cons, chanJoin_cons, h, ih] <;> simp [h]

theorem chanJoin_append (ch : UartTxChannel) (rs₁ rs₂ : List SerialPacket) :
    chanJoin ch (rs₁ ++ rs₂) = chanJoin ch rs₁ ++ chanJoin ch rs₂ := by
  simp [chanJoin, List.filter_append]

theorem chanJoin_recordsOf (ch : UartTxChannel) (ws : List (UartTxChannel × List Nat × Nat)) :
    chanJoin ch (recordsOf ws) = channelBytes ch ws := by
  induction ws with
  | nil => rfl
  | cons w ws ih =>
    obtain ⟨ch₀, data, t⟩ := w
    have hrec : recordsOf ((ch₀, data, t) :: ws)
        = (chunksOf (MAX_PACKET_LEN - 32) data).map (fun c => ⟨ch₀, c, t⟩)
          ++ recordsOf ws := by
      simp [recordsOf]
    rw [hrec, chanJoin_append, chanJoin_map_const, ih, channelBytes_cons]
    by_cases h : ch₀ == ch <;>
      simp [h, chunksOf_flatten (MAX_PACKET_LEN - 32) (by decide) data]

theorem next_packet_fileOfRecs (rec : SerialPacket) (rs : List SerialPacket)
    (cb nb : List Nat) :
    SerialPacketReader.next_packet ⟨fileOfRecs (rec :: rs), cb, nb⟩
      = (.ok (some rec), ⟨fileOfRecs rs, cb, nb⟩) := by
  obtain ⟨ch, data, time⟩ := rec
  cases ch <;>
    simp [fileOfRecs, SerialPacketReader.next_packet, buildPacket, channelAddrs,
      CTRL, NODE, PcapData.byteLen]

end RoundTrip

theorem fill_bufferGo_nonempty (ch : UartTxChannel) (fuel : Nat) (r : SerialPacketReader)
    (h : (r.get_buffer ch).isEmpty = false) :
    SerialPacketReader.fill_bufferGo ch fuel r = .ok r := by
  cases fuel <;> simp [SerialPacketReader.fill_bufferGo, h]

theorem fill_fileOfRecs (ch : UartTxChannel) :
    ∀ (rs : List SerialPacket) (r : SerialPacketReader),
      r.pcap = fileOfRecs rs → r.get_buffer ch = [] →
      ∃ rs₂ r₂, SerialPacketReader.fill_buffer ch r = .ok r₂
        ∧ r₂.pcap = fileOfRecs rs₂
        ∧ r₂.get_buffer ch ++ chanJoin ch rs₂ = chanJoin ch rs
        ∧ (r₂.get_buffer ch = [] → rs₂ = [])
        ∧ rs₂.length ≤ rs.length
        ∧ (r₂.get_buffer ch ≠ [] → rs₂.length < rs.length) := by
  intro rs
  induction rs with
  | nil =>
    intro r hp hb
    refine ⟨[], r, ?_, hp, by simp [hb, chanJoin], fun _ => rfl, Nat.le_refl _, by simp [hb]⟩
    rw [SerialPacketReader.fill_buffer, hp]
    rfl
  | cons rec rs ih =>
    intro r hp hb
    obtain ⟨pc, cb, nb⟩ := r
    simp only at hp hb
    subst hp
    have hlen : (SerialPacketReader.mk (fileOfRecs (rec :: rs)) cb nb).pcap.length
        = rs.length + 1 := by
      simp [fileOfRecs_length]
    rw [SerialPacketReader.fill_buffer, hlen]
    have hext := next_packet_fileOfRecs rec rs cb nb
    set r₃ := (SerialPacketReader.mk (fileOfRecs rs) cb nb).set_buffer rec.ch
      ((SerialPacketReader.mk (fileOfRecs rs) cb nb).get_buffer rec.ch ++ rec.data) with hr₃
    have hstep : SerialPacketReader.fill_bufferGo ch (rs.length + 1)
        (SerialPacketReader.mk (fileOfRecs (rec :: rs)) cb nb)
        = SerialPacketReader.fill_bufferGo ch rs.length r₃ := by
      simp only [SerialPacketReader.fill_bufferGo, hb, List.isEmpty_nil,
        SerialPacketReader.extend_one_pkt, hext, if_true]
    rw [hstep]
    have hpc₃ : r₃.pcap = fileOfRecs rs := by rw [hr₃, set_buffer_pcap]
    have hlen₃ : r₃.pcap.length = rs.length := by rw [hpc₃, fileOfRecs_length]
    have hbufs : ∀ pc₂ : List PcapItem, ∀ c : UartTxChannel,
        (SerialPacketReader.mk pc₂ cb nb).get_buffer c
          = (SerialPacketReader.mk (fileOfRecs (rec :: rs)) cb nb).get_buffer c := by
      intro pc₂ c
      cases c <;> rfl
    by_cases hch : rec.ch = ch
    · subst hch
      have hbuf₃ : r₃.get_buffer rec.ch = rec.data := by
        rw [hr₃, get_set_same, hbufs, hb, List.nil_append]
      cases hdata : rec.data with
      | nil =>
        have hb₃ : r₃.get_buffer rec.ch = [] := by rw [hbuf₃, hdata]
        obtain ⟨rs₂, r₂, hfill, h1, h2, h3, h4, h5⟩ := ih r₃ hpc₃ hb₃
        rw [SerialPacketReader.fill_buffer, hlen₃] at hfill
        refine ⟨rs₂, r₂, hfill, h1, ?_, h3,
          by simp only [List.length_cons]; omega,
          by intro h; have h5h := h5 h; simp only [List.length_cons]; omega⟩
        rw [h2, chanJoin_cons]
        simp [hdata]
      | cons d ds =>
        have hb₃ : (r₃.get_buffer rec.ch).isEmpty = false := by
          rw [hbuf₃, hdata]; rfl
        rw [fill_bufferGo_nonempty rec.ch rs.length r₃ hb₃]
        refine ⟨rs, r₃, rfl, hpc₃, ?_, ?_,
          by simp only [List.length_cons]; omega,
          fun _ => by simp only [List.length_cons]; omega⟩
        · rw [hbuf₃, chanJoin_cons]
          simp
        · intro h
          rw [hbuf₃, hdata] at h
          exact absurd h (by simp)
    · have hbuf₃ : r₃.get_buffer ch = [] := by
        rw [hr₃, get_set_other _ _ _ _ hch, hbufs, hb]
      obtain ⟨rs₂, r₂, hfill, h1, h2, h3, h4, h5⟩ := ih r₃ hpc₃ hbuf₃
      rw [SerialPacketReader.fill_buffer, hlen₃] at hfill
      refine ⟨rs₂, r₂, hfill, h1, ?_, h3,
        by simp only [List.length_cons]; omega,
        by intro h; have h5h := h5 h; simp only [List.length_cons]; omega⟩
      rw [h2, chanJoin_cons]
      have hne : (rec.ch == ch) = false := by simp [hch]
      simp [hne]

theorem readToEnd_fileOfRecs (ch : UartTxChannel) (maxLen : Nat) (hm : 1 ≤ maxLen) :
    ∀ (fuel : Nat) (rs : List SerialPacket) (r : SerialPacketReader),
      r.pcap = fileOfRecs rs →
      rs.length + (r.get_buffer ch).length + (chanJoin ch rs).length + 1 ≤ fuel →
      readToEnd maxLen fuel r ch = .ok (r.get_buffer ch ++ chanJoin ch rs) := by
  intro fuel
  induction fuel with
  | zero => intro rs r hp hf; omega
  | succ fuel ih =>
    intro rs r hp hf
    by_cases hb : r.get_buffer ch = []
    · obtain ⟨rs₂, r₂, hfill, h1, h2, h3, h4, h5⟩ := fill_fileOfRecs ch rs r hp hb
      have hrb : r.read_bytes ch maxLen
          = .ok ((r₂.get_buffer ch).take (min maxLen (r₂.get_buffer ch).length),
              r₂.set_buffer ch
                ((r₂.get_buffer ch).drop (min maxLen (r₂.get_buffer ch).length))) := by
        simp only [SerialPacketReader.read_bytes, hb, List.isEmpty_nil, if_true, hfill]
      cases hbuf₂ : r₂.get_buffer ch with
      | nil =>
        have hrs₂ : rs₂ = [] := h3 hbuf₂
        have hjoin : chanJoin ch rs = [] := by
          rw [← h2, hbuf₂, hrs₂]
          rfl
        rw [hbuf₂] at hrb
        simp only [readToEnd, hrb, List.take_nil]
        simp [hb, hjoin]
      | cons b bs =>
        have hmin : ∃ k, min maxLen (b :: bs).length = k + 1 := by
          refine ⟨min maxLen (b :: bs).length - 1, ?_⟩
          have : 1 ≤ min maxLen (b :: bs).length := by
            simp only [List.length_cons]
            omega
          omega
        obtain ⟨k, hk⟩ := hmin
        rw [hbuf₂] at hrb
        rw [hk] at hrb
        simp only [List.take_succ_cons, List.drop_succ_cons] at hrb
        have hlt : rs₂.length < rs.length := h5 (by rw [hbuf₂]; simp)
        have hlen2 : bs.length + 1 + (chanJoin ch rs₂).length = (chanJoin ch rs).length := by
          have := congrArg List.length h2
          rw [hbuf₂] at this
          simp only [List.length_append, List.length_cons] at this
          omega
        have hihres := ih rs₂ (r₂.set_buffer ch (bs.drop k)) ?_ ?_
        · simp only [readToEnd, hrb]
          rw [hihres, get_set_same]
          show RResult.ok ((b :: List.take k bs) ++ (List.drop k bs ++ chanJoin ch rs₂))
            = RResult.ok (r.get_buffer ch ++ chanJoin ch rs)
          rw [hb, List.nil_append, ← h2, hbuf₂, ← List.append_assoc, List.cons_append,
            List.take_append_drop]
        · rw [set_buffer_pcap, h1]
        · rw [get_set_same, List.length_drop]
          rw [hb] at hf
          simp only [List.length_nil] at hf
          omega
    · cases hcb : r.get_buffer ch with
      | nil => exact absurd hcb hb
      | cons b bs =>
        have hrb : r.read_bytes ch maxLen
            = .ok ((r.get_buffer ch).take (min maxLen (r.get_buffer ch).length),
                r.set_buffer ch
                  ((r.get_buffer ch).drop (min maxLen (r.get_buffer ch).length))) := by
          simp only [SerialPacketReader.read_bytes, hcb, List.isEmpty_cons, Bool.false_eq_true,
            if_false]
        have hmin : ∃ k, min maxLen (b :: bs).length = k + 1 := by
          refine ⟨min maxLen (b :: bs).length - 1, ?_⟩
          have : 1 ≤ min maxLen (b :: bs).length := by
            simp only [List.length_cons]
            omega
          omega
        obtain ⟨k, hk⟩ := hmin
        rw [hcb, hk] at hrb
        simp only [List.take_succ_cons, List.drop_succ_cons] at hrb
        have hihres := ih rs (r.set_buffer ch (bs.drop k)) ?_ ?_
        · simp only [readToEnd, hrb]
          rw [hihres, get_set_same]
          show RResult.ok ((b :: List.take k bs) ++ (List.drop k bs ++ chanJoin ch rs))
            = RResult.ok ((b :: bs) ++ chanJoin ch rs)
          rw [← List.append_assoc, List.cons_append, List.take_append_drop]
        · rw [set_buffer_pcap, hp]
        · rw [get_set_same, List.length_drop]
          rw [hcb] at hf
          simp only [List.length_cons] at hf
          omega

/-- Claim C1: round trip through the capture format.  For every sequence of
`write_packet_time` calls, draining the resulting capture per channel through
`read_bytes` yields exactly the concatenation of that channel's written runs
in their original relative order, regardless of chunking; and the concrete
scenario (`Primary` = `Ctrl`, `Secondary` = `Node`): writing
`(Ctrl, [0x04, 0x31, 0x32], t₀)`, `(Node, [0x06], t₀+1)`, `(Ctrl, [0x04], t₀+2)`
produces a file of 3 records in that order, from which the `Ctrl` reader
yields `[0x04, 0x31, 0x32, 0x04]` and the `Node` reader yields `[0x06]`. -/
theorem capture_round_trip :
    (∀ (ws : List (UartTxChannel × List Nat × Nat)) (ch : UartTxChannel)
        (maxLen fuel : Nat), 1 ≤ maxLen →
        (writeAll [] ws).length + (channelBytes ch ws).length + 1 ≤ fuel →
        readToEnd maxLen fuel (mkReader (writeAll [] ws)) ch
          = .ok (channelBytes ch ws))
    ∧ writeAll [] [(.Ctrl, [0x04, 0x31, 0x32], 0), (.Node, [0x06], 1), (.Ctrl, [0x04], 2)]
        = [.pkt (buildPacket .Ctrl 0 [0x04, 0x31, 0x32]),
           .pkt (buildPacket .Node 1 [0x06]),
           .pkt (buildPacket .Ctrl 2 [0x04])]
    ∧ readToEnd 4096 10 (mkReader (writeAll []
        [(.Ctrl, [0x04, 0x31, 0x32], 0), (.Node, [0x06], 1), (.Ctrl, [0x04], 2)])) .Ctrl
        = .ok [0x04, 0x31, 0x32, 0x04]
    ∧ readToEnd 4096 10 (mkReader (writeAll []
        [(.Ctrl, [0x04, 0x31, 0x32], 0), (.Node, [0x06], 1), (.Ctrl, [0x04], 2)])) .Node
        = .ok [0x06] := by
  refine ⟨?_, by decide, by decide, by decide⟩
  intro ws ch maxLen fuel hm hf
  have hfile : writeAll [] ws = fileOfRecs (recordsOf ws) := writeAll_records ws
  have hbuf : (mkReader (writeAll [] ws)).get_buffer ch = [] := by
    cases ch <;> rfl
  have hres := readToEnd_fileOfRecs ch maxLen hm fuel (recordsOf ws)
    (mkReader (writeAll [] ws)) (by simp [mkReader, hfile]) ?_
  · rw [hres, hbuf, List.nil_append, chanJoin_recordsOf]
  · rw [hbuf, chanJoin_recordsOf]
    rw [hfile, fileOfRecs_length] at hf
    simpa using hf

/-- Witness for C1: the round-trip theorem applied to the concrete scenario. -/
theorem capture_round_trip_witness :
    readToEnd 100 20 (mkReader (writeAll []
        [(.Ctrl, [0x04, 0x31, 0x32], 0), (.Node, [0x06], 1), (.Ctrl, [0x04], 2)])) .Ctrl
      = .ok (channelBytes .Ctrl
        [(.Ctrl, [0x04, 0x31, 0x32], 0), (.Node, [0x06], 1), (.Ctrl, [0x04], 2)]) :=
  capture_round_trip.1
    [(.Ctrl, [0x04, 0x31, 0x32], 0), (.Node, [0x06], 1), (.Ctrl, [0x04], 2)]
    .Ctrl 100 20 (by decide) (by decide)

section MuxDemux

/-- The channel named by the tag bit of the first non-marker byte
(`ch == 0x80 ? Ctrl : Node` in `read_muxed_uart`). -/
def muxTag (byte : Nat) : UartTxChannel :=
  if byte &&& 0x80 = 0x80 then .Ctrl else .Node

/-- The length of the scanned run: the longest prefix whose bytes either
carry the same tag bit as `byte` or are marker bytes
(`take_while(|&b| b & 0x80 == ch || *b == TRIG_BYTE)`). -/
def muxRunLen (byte : Nat) (buf : List Nat) : Nat :=
  (buf.takeWhile (fun b => b &&& 0x80 == byte &&& 0x80 || b == TRIG_BYTE)).length

/-- The scan loop of `read_muxed_uart` over the accumulated buffer: find the
first non-marker byte (its top bit names the channel; if there is none the
loop waits for more input, keeping the buffer); split off the run prefix;
clear bit 7 of every split-off byte (markers included — a marker inside the
run is only logged) and emit the result as one event; repeat on the
remainder.  Each emitted run is nonempty, so `buf.length` fuel is enough. -/
def processMuxedGo : Nat → List Nat → List (UartTxChannel × List Nat) × List Nat
  | 0, buf => ([], buf)
  | fuel + 1, buf =>
    if buf.isEmpty then ([], buf)
    else
      match buf.find? (fun b => b != TRIG_BYTE) with
      | none => ([], buf)
      | some byte =>
        let l := muxRunLen byte buf
        let rest := processMuxedGo fuel (buf.drop l)
        ((muxTag byte, (buf.take l).map (fun b => b &&& 0x7f)) :: rest.1, rest.2)

/-- The events sent and the bytes left buffered after scanning `buf`. -/
def processMuxed (buf : List Nat) : List (UartTxChannel × List Nat) × List Nat :=
  processMuxedGo buf.length buf

theorem muxRunLen_pos (b₀ : Nat) (bs : List Nat) (byte : Nat)
    (hf : (b₀ :: bs).find? (fun b => b != TRIG_BYTE) = some byte) :
    1 ≤ muxRunLen byte (b₀ :: bs) := by
  by_cases h0 : b₀ = TRIG_BYTE
  · have hp : (b₀ &&& 0x80 == byte &&& 0x80 || b₀ == TRIG_BYTE) = true := by
      simp [h0]
    simp [muxRunLen, List.takeWhile_cons, hp]
  · have hb : byte = b₀ := by
      rw [List.find?_cons_of_pos] at hf
      · exact (Option.some_injective _ hf).symm
      · simp [h0]
    have hp : (b₀ &&& 0x80 == byte &&& 0x80 || b₀ == TRIG_BYTE) = true := by
      simp [hb]
    simp [muxRunLen, List.takeWhile_cons, hp]

theorem processMuxedGo_spec :
    ∀ (fuel : Nat) (buf : List Nat), buf.length ≤ fuel →
      (∃ consumed, buf = consumed ++ (processMuxedGo fuel buf).2
        ∧ ((processMuxedGo fuel buf).1.map (fun ev => ev.2)).flatten
            = consumed.map (fun b => b &&& 0x7f))
      ∧ ((processMuxedGo fuel buf).2.all (fun b => b == TRIG_BYTE) = true)
      ∧ (∀ ev ∈ (processMuxedGo fuel buf).1, ev.2 ≠ []) := by
  intro fuel
  induction fuel with
  | zero =>
    intro buf hl
    have hbuf : buf = [] := List.length_eq_zero.mp (Nat.le_zero.mp hl)
    subst hbuf
    exact ⟨⟨[], rfl, rfl⟩, rfl, by simp [processMuxedGo]⟩
  | succ fuel ih =>
    intro buf hl
    cases hbuf : buf with
    | nil =>
      exact ⟨⟨[], rfl, rfl⟩, rfl, by simp [processMuxedGo]⟩
    | cons b₀ bs =>
      cases hfind : (b₀ :: bs).find? (fun b => b != TRIG_BYTE) with
      | none =>
        have hgo : processMuxedGo (fuel + 1) (b₀ :: bs) = ([], b₀ :: bs) := by
          simp [processMuxedGo, hfind]
        have hall : (b₀ :: bs).all (fun b => b == TRIG_BYTE) = true := by
          rw [List.find?_eq_none] at hfind
          rw [List.all_eq_true]
          intro x hx
          have := hfind x hx
          simpa using this
        rw [hgo]
        exact ⟨⟨[], rfl, rfl⟩, hall, by simp⟩
      | some byte =>
        have hl1 : 1 ≤ muxRunLen byte (b₀ :: bs) := muxRunLen_pos b₀ bs byte hfind
        have hgo : processMuxedGo (fuel + 1) (b₀ :: bs)
            = ((muxTag byte,
                ((b₀ :: bs).take (muxRunLen byte (b₀ :: bs))).map (fun b => b &&& 0x7f))
              :: (processMuxedGo fuel ((b₀ :: bs).drop (muxRunLen byte (b₀ :: bs)))).1,
              (processMuxedGo fuel ((b₀ :: bs).drop (muxRunLen byte (b₀ :: bs)))).2) := by
          simp [processMuxedGo, hfind]
        have hdrop : ((b₀ :: bs).drop (muxRunLen byte (b₀ :: bs))).length ≤ fuel := by
          rw [List.length_drop]
          rw [hbuf] at hl
          simp only [List.length_cons] at hl ⊢
          omega
        obtain ⟨⟨consumed, hsplit, hflat⟩, hrest, hmem⟩ :=
          ih ((b₀ :: bs).drop (muxRunLen byte (b₀ :: bs))) hdrop
        rw [hgo]
        refine ⟨⟨(b₀ :: bs).take (muxRunLen byte (b₀ :: bs)) ++ consumed, ?_, ?_⟩, hrest, ?_⟩
        · conv_lhs => rw [← List.take_append_drop (muxRunLen byte (b₀ :: bs)) (b₀ :: bs)]
          rw [List.append_assoc, ← hsplit]
        · simp only [List.map_cons, List.flatten_cons, hflat, List.map_append]
        · intro ev hev
          simp only [List.mem_cons] at hev
          rcases hev with hev | hev
          · subst hev
            simp only [ne_eq, List.map_eq_nil_iff]
            intro htake
            rw [List.take_eq_nil_iff] at htake
            rcases htake with h | h
            · omega
            · exact absurd h (by simp)
          · exact hmem ev hev

end MuxDemux

/-- Counterexample to C3 as stated: feeding `[0x31, TRIG_BYTE, 0x32]` to the
demultiplexer emits one `Node` run whose payload still contains the marker
byte — the marker is logged, not dropped. -/
theorem mux_marker_in_payload_counterexample :
    processMuxed [0x31, TRIG_BYTE, 0x32] = ([(.Node, [0x31, TRIG_BYTE, 0x32])], [])
    ∧ TRIG_BYTE ∈ (((processMuxed [0x31, TRIG_BYTE, 0x32]).1.map
        (fun ev => ev.2)).flatten) := by
  refine ⟨by decide, by decide⟩

/-- Claim C3 (amended): the demultiplexer splits each accumulated buffer into
consecutive nonempty runs; the concatenation of the emitted payloads equals
the consumed prefix of the buffer with bit 7 cleared on every byte — marker
bytes inside a run are retained in the payload (only logged), not removed;
the unconsumed suffix, kept for the next read, consists only of marker
bytes, and a buffer holding only marker bytes emits no run at all. -/
theorem mux_demux_segmentation :
    ∀ buf : List Nat,
      (∃ consumed, buf = consumed ++ (processMuxed buf).2
        ∧ ((processMuxed buf).1.map (fun ev => ev.2)).flatten
            = consumed.map (fun b => b &&& 0x7f))
      ∧ ((processMuxed buf).2.all (fun b => b == TRIG_BYTE) = true)
      ∧ (∀ ev ∈ (processMuxed buf).1, ev.2 ≠ [])
      ∧ (buf.all (fun b => b == TRIG_BYTE) = true → processMuxed buf = ([], buf)) := by
  intro buf
  obtain ⟨h1, h2, h3⟩ := processMuxedGo_spec buf.length buf (Nat.le_refl _)
  refine ⟨h1, h2, h3, ?_⟩
  intro hall
  cases hbuf : buf with
  | nil => rfl
  | cons b₀ bs =>
    have hfind : (b₀ :: bs).find? (fun b => b != TRIG_BYTE) = none := by
      rw [List.find?_eq_none]
      intro x hx
      rw [hbuf, List.all_eq_true] at hall
      have := hall x hx
      simpa using this
    show processMuxedGo (b₀ :: bs).length (b₀ :: bs) = ([], b₀ :: bs)
    simp [processMuxedGo, List.length_cons, hfind]

section Producers

/-- Status of a producer task after consuming a finite prefix of reads:
still running (awaiting more bytes) or returned an error (the `bail!` on a
zero-length read, or a propagated read error). -/
inductive TaskStatus
  | pending
  | failed
deriving DecidableEq

/-- `read_uart` over a finite list of underlying reads: `none` models a read
returning `Err`, `some bs` a read delivering `bs`.  A zero-length read
(`Ok(0)`) makes the task bail out with an error — nothing after it is
processed; otherwise the fresh bytes are sent as one channel-tagged event. -/
def read_uart (ch : UartTxChannel) :
    List (Option (List Nat)) → List (UartTxChannel × List Nat) × TaskStatus
  | [] => ([], .pending)
  | none :: _ => ([], .failed)
  | some [] :: _ => ([], .failed)
  | some (b :: bs) :: reads =>
    let rest := read_uart ch reads
    ((ch, b :: bs) :: rest.1, rest.2)

/-- `read_muxed_uart` over a finite list of underlying reads: like
`read_uart`, but each delivery is appended to the scan buffer and the scan
loop (`processMuxed`) emits the channel-tagged, tag-stripped events; an
all-marker suffix stays in the buffer awaiting the next read. -/
def read_muxed_uart (buf : List Nat) :
    List (Option (List Nat)) → List (UartTxChannel × List Nat) × TaskStatus
  | [] => ([], .pending)
  | none :: _ => ([], .failed)
  | some [] :: _ => ([], .failed)
  | some (b :: bs) :: reads =>
    let step := processMuxed (buf ++ b :: bs)
    let rest := read_muxed_uart step.2 reads
    (step.1 ++ rest.1, rest.2)

/-- All reads in the list delivered at least one byte. -/
def goodReads (reads : List (Option (List Nat))) : Bool :=
  reads.all (fun x => match x with | some (_ :: _) => true | _ => false)

end Producers

/-- Claim C9: in both producer tasks a zero-length underlying read is fatal:
the task returns an error there, emitting no event for it and processing
nothing that follows — unlike the no-reads-yet state, which is merely
pending. -/
theorem zero_length_read_fatal :
    (∀ ch, read_uart ch [] = ([], .pending))
    ∧ (∀ buf, read_muxed_uart buf [] = ([], .pending))
    ∧ (∀ ch pre post, goodReads pre = true →
        read_uart ch (pre ++ some [] :: post) = ((read_uart ch pre).1, .failed))
    ∧ (∀ buf pre post, goodReads pre = true →
        read_muxed_uart buf (pre ++ some [] :: post)
          = ((read_muxed_uart buf pre).1, .failed)) := by
  refine ⟨fun ch => rfl, fun buf => rfl, ?_, ?_⟩
  · intro ch pre
    induction pre with
    | nil => intro post hg; rfl
    | cons x pre ih =>
      intro post hg
      simp only [goodReads, List.all_cons, Bool.and_eq_true] at hg
      obtain ⟨hx, hrest⟩ := hg
      cases x with
      | none => simp at hx
      | some l =>
        cases l with
        | nil => simp at hx
        | cons b bs =>
          simp only [List.cons_append, read_uart, List.append_eq]
          rw [ih post hrest]
  · intro buf pre
    induction pre generalizing buf with
    | nil => intro post hg; rfl
    | cons x pre ih =>
      intro post hg
      simp only [goodReads, List.all_cons, Bool.and_eq_true] at hg
      obtain ⟨hx, hrest⟩ := hg
      cases x with
      | none => simp at hx
      | some l =>
        cases l with
        | nil => simp at hx
        | cons b bs =>
          simp only [List.cons_append, read_muxed_uart, List.append_eq]
          rw [ih _ post hrest]

/-- Witness for C9: one good read, then a zero-length read; the task emits
the one event and fails, ignoring the later read. -/
theorem zero_length_read_fatal_witness :
    goodReads [some [5]] = true
    ∧ read_uart .Ctrl ([some [5]] ++ some [] :: [some [7]])
        = ((read_uart .Ctrl [some [5]]).1, .failed) :=
  ⟨by decide, zero_length_read_fatal.2.2.1 .Ctrl [some [5]] [some [7]] (by decide)⟩

section Recorder

/-- The run state of the stream recorder loop in `record_streams`: the
channel of the open run (`prev_ch`), its accumulated bytes (`buf`, empty
when no run is open), and the run's timestamp (`time`). -/
structure RecState where
  prev_ch : UartTxChannel
  buf : List Nat
  time : Nat
deriving DecidableEq

/-- One observation of the consumer loop: a queued event (`rx.recv()`
returning `Some(UartData)`), or the read timeout elapsing while a run is
open.  The end of the trace models queue closure (`recv` returning `None`,
all senders dropped). -/
inductive RecEvent
  | recvd (ch : UartTxChannel) (data : List Nat) (time : Nat)
  | elapsed
deriving DecidableEq

/-- The loop of `record_streams` over an observation trace.  With a run
open: a timeout flushes it; an event on another channel, or one whose first
byte is `0x04`, flushes it and starts a new run (`data[0]` on an empty
same-channel event is an index panic, `none`); a same-channel event is
appended.  With no run open, an event starts the run.  At queue closure the
loop returns `Ok(())`: the result is the written file and the still-buffered
(discarded) run bytes. -/
def record_streams_go (file : List PcapItem) (s : RecState) :
    List RecEvent → Option (List PcapItem × List Nat)
  | [] => some (file, s.buf)
  | ev :: evs =>
    if s.buf.isEmpty then
      match ev with
      | .elapsed => record_streams_go file s evs
      | .recvd ch data time => record_streams_go file ⟨ch, data, time⟩ evs
    else
      match ev with
      | .elapsed =>
        record_streams_go (write_packet_time file s.buf s.prev_ch s.time)
          { s with buf := [] } evs
      | .recvd ch data time =>
        if ch ≠ s.prev_ch then
          record_streams_go (write_packet_time file s.buf s.prev_ch s.time)
            ⟨ch, data, time⟩ evs
        else
          match data with
          | [] => none
          | d :: ds =>
            if d = 0x04 then
              record_streams_go (write_packet_time file s.buf s.prev_ch s.time)
                ⟨ch, d :: ds, time⟩ evs
            else
              record_streams_go file { s with buf := s.buf ++ d :: ds } evs

/-- `record_streams` run from its initial state (`prev_ch = Node`, no open
run, empty capture file). -/
def record_streams (events : List RecEvent) : Option (List PcapItem × List Nat) :=
  record_streams_go [] ⟨.Node, [], 0⟩ events

theorem chunksOf_singleton (n : Nat) (l : List α) (hne : l ≠ []) (hlen : l.length ≤ n) :
    chunksOf n l = [l] := by
  cases l with
  | nil => exact absurd rfl hne
  | cons a l =>
    show chunksOfGo n (l.length + 1) (a :: l) = [a :: l]
    simp only [chunksOfGo]
    rw [List.take_of_length_le (by simpa using hlen),
      List.drop_eq_nil_of_le (by simpa using hlen)]
    cases l.length <;> rfl

/-- Flushing a run of at most `MAX_PACKET_LEN - 32` bytes appends exactly
one record. -/
theorem write_packet_time_single (file : List PcapItem) (d : List Nat)
    (pc : UartTxChannel) (t : Nat) (hne : d ≠ []) (hlen : d.length ≤ MAX_PACKET_LEN - 32) :
    write_packet_time file d pc t = file ++ [.pkt (buildPacket pc t d)] := by
  rw [write_packet_time, chunksOf_singleton _ d hne hlen]
  rfl

end Recorder

theorem record_streams_go_elapsed (file : List PcapItem) (s : RecState)
    (evs : List RecEvent) (h : s.buf ≠ []) :
    record_streams_go file s (.elapsed :: evs)
      = record_streams_go (write_packet_time file s.buf s.prev_ch s.time)
          { s with buf := [] } evs := by
  obtain ⟨pc, sbuf, st⟩ := s
  cases sbuf with
  | nil => exact absurd rfl h
  | cons x xs => rfl

theorem record_streams_go_flush_switch (file : List PcapItem) (s : RecState)
    (ch : UartTxChannel) (data : List Nat) (time : Nat) (evs : List RecEvent)
    (h : s.buf ≠ []) (hch : ch ≠ s.prev_ch) :
    record_streams_go file s (.recvd ch data time :: evs)
      = record_streams_go (write_packet_time file s.buf s.prev_ch s.time)
          ⟨ch, data, time⟩ evs := by
  obtain ⟨pc, sbuf, st⟩ := s
  cases sbuf with
  | nil => exact absurd rfl h
  | cons x xs =>
    simp only at hch
    simp [record_streams_go, hch]

theorem record_streams_go_flush_eot (file : List PcapItem) (s : RecState)
    (ch : UartTxChannel) (d : Nat) (ds : List Nat) (time : Nat) (evs : List RecEvent)
    (h : s.buf ≠ []) (hch : ch = s.prev_ch) (hd : d = 0x04) :
    record_streams_go file s (.recvd ch (d :: ds) time :: evs)
      = record_streams_go (write_packet_time file s.buf s.prev_ch s.time)
          ⟨ch, d :: ds, time⟩ evs := by
  obtain ⟨pc, sbuf, st⟩ := s
  cases sbuf with
  | nil => exact absurd rfl h
  | cons x xs =>
    simp only at hch
    simp [record_streams_go, hch, hd]

theorem record_streams_go_append (file : List PcapItem) (s : RecState)
    (ch : UartTxChannel) (d : Nat) (ds : List Nat) (time : Nat) (evs : List RecEvent)
    (h : s.buf ≠ []) (hch : ch = s.prev_ch) (hd : d ≠ 0x04) :
    record_streams_go file s (.recvd ch (d :: ds) time :: evs)
      = record_streams_go file ⟨s.prev_ch, s.buf ++ d :: ds, s.time⟩ evs := by
  obtain ⟨pc, sbuf, st⟩ := s
  cases sbuf with
  | nil => exact absurd rfl h
  | cons x xs =>
    simp only at hch
    simp [record_streams_go, hch, hd]

/-- Claim C2 (amended): when the event queue closes (all producer handles
dropped) the recorder terminates returning success, but it does not flush an
open run: the file is returned exactly as already written and the buffered
run bytes are discarded.  (Flushes happen only on timeout, channel switch,
or a `0x04`-headed event.) -/
theorem recorder_close_discards_open_run :
    (∀ (file : List PcapItem) (s : RecState),
        record_streams_go file s [] = some (file, s.buf))
    ∧ record_streams [.recvd .Node [0x31] 0] = some ([], [0x31]) :=
  ⟨fun _ _ => rfl, by decide⟩

/-- Counterexample to C2 as stated: two same-channel events then queue
closure; the recorder returns success with an empty capture file — the open
run `[0x31, 0x32]` was never flushed as a record. -/
theorem recorder_close_no_flush_counterexample :
    record_streams [.recvd .Node [0x31] 0, .recvd .Node [0x32] 1]
      = some ([], [0x31, 0x32]) := by decide

/-- Claim C5 (amended): with no open run an event starts one; with an open
run, an incoming event is flushed-then-started if and only if its channel
differs from the run's channel or its first byte is `0x04`; otherwise it is
appended to the run with no record written.  A flushed run of at most
`MAX_PACKET_LEN - 32` bytes is exactly one record. -/
theorem recorder_run_coalescing :
    (∀ (file : List PcapItem) (pc : UartTxChannel) (t₀ : Nat) (ch : UartTxChannel)
        (data : List Nat) (time : Nat) (evs : List RecEvent),
        record_streams_go file ⟨pc, [], t₀⟩ (.recvd ch data time :: evs)
          = record_streams_go file ⟨ch, data, time⟩ evs)
    ∧ (∀ (file : List PcapItem) (s : RecState) (ch : UartTxChannel) (d : Nat)
        (ds : List Nat) (time : Nat) (evs : List RecEvent), s.buf ≠ [] →
        (ch ≠ s.prev_ch ∨ d = 0x04) →
        record_streams_go file s (.recvd ch (d :: ds) time :: evs)
          = record_streams_go (write_packet_time file s.buf s.prev_ch s.time)
              ⟨ch, d :: ds, time⟩ evs)
    ∧ (∀ (file : List PcapItem) (s : RecState) (ch : UartTxChannel) (d : Nat)
        (ds : List Nat) (time : Nat) (evs : List RecEvent), s.buf ≠ [] →
        ch = s.prev_ch → d ≠ 0x04 →
        record_streams_go file s (.recvd ch (d :: ds) time :: evs)
          = record_streams_go file ⟨s.prev_ch, s.buf ++ d :: ds, s.time⟩ evs)
    ∧ (∀ (file : List PcapItem) (d : List Nat) (pc : UartTxChannel) (t : Nat),
        d ≠ [] → d.length ≤ MAX_PACKET_LEN - 32 →
        write_packet_time file d pc t = file ++ [.pkt (buildPacket pc t d)]) := by
  refine ⟨fun _ _ _ _ _ _ _ => rfl, ?_, record_streams_go_append, write_packet_time_single⟩
  intro file s ch d ds time evs h hflush
  by_cases hch : ch = s.prev_ch
  · rcases hflush with hne | hd
    · exact absurd hch hne
    · exact record_streams_go_flush_eot file s ch d ds time evs h hch hd
  · exact record_streams_go_flush_switch file s ch (d :: ds) time evs h hch

/-- Counterexample to C5 as stated: a same-channel event whose first byte is
`0x04` also flushes the open run — one record is written although the
incoming event's channel equals the open run's channel. -/
theorem recorder_flush_on_eot_counterexample :
    record_streams_go [] ⟨.Node, [0x31], 0⟩ [.recvd .Node [0x04] 1]
      = some ([.pkt (buildPacket .Node 0 [0x31])], [0x04]) := by decide

/-- Witness for C5: a channel switch flushes the open run. -/
theorem recorder_run_coalescing_witness :
    ([0x31] : List Nat) ≠ []
    ∧ (UartTxChannel.Ctrl ≠ UartTxChannel.Node ∨ (0x06 : Nat) = 0x04)
    ∧ record_streams_go [] ⟨.Node, [0x31], 0⟩ [.recvd .Ctrl [0x06] 1]
        = record_streams_go (write_packet_time [] [0x31] .Node 0) ⟨.Ctrl, [0x06], 1⟩ [] :=
  ⟨by decide, by decide,
    recorder_run_coalescing.2.1 [] ⟨.Node, [0x31], 0⟩ .Ctrl 0x06 [] 1 []
      (by decide) (by decide)⟩

/-- Claim C7: with a run open, the elapse of the inactivity window flushes
it exactly as a different-channel event would (both continue from the same
written file); a run of at most `MAX_PACKET_LEN - 32` bytes flushes as one
standalone record; concretely, a delay between two same-channel events puts
a record boundary where none appears without the delay. -/
theorem recorder_timeout_flush :
    (∀ (file : List PcapItem) (s : RecState) (evs : List RecEvent), s.buf ≠ [] →
        record_streams_go file s (.elapsed :: evs)
          = record_streams_go (write_packet_time file s.buf s.prev_ch s.time)
              { s with buf := [] } evs)
    ∧ (∀ (file : List PcapItem) (s : RecState) (ch : UartTxChannel) (data : List Nat)
        (time : Nat) (evs : List RecEvent), s.buf ≠ [] → ch ≠ s.prev_ch →
        record_streams_go file s (.recvd ch data time :: evs)
          = record_streams_go (write_packet_time file s.buf s.prev_ch s.time)
              ⟨ch, data, time⟩ evs)
    ∧ (∀ (file : List PcapItem) (d : List Nat) (pc : UartTxChannel) (t : Nat),
        d ≠ [] → d.length ≤ MAX_PACKET_LEN - 32 →
        write_packet_time file d pc t = file ++ [.pkt (buildPacket pc t d)])
    ∧ record_streams [.recvd .Node [0x31] 0, .elapsed, .recvd .Node [0x32] 5, .elapsed]
        = some ([.pkt (buildPacket .Node 0 [0x31]), .pkt (buildPacket .Node 5 [0x32])], [])
    ∧ record_streams [.recvd .Node [0x31] 0, .recvd .Node [0x32] 5, .elapsed]
        = some ([.pkt (buildPacket .Node 0 [0x31, 0x32])], []) :=
  ⟨record_streams_go_elapsed, record_streams_go_flush_switch, write_packet_time_single,
    by decide, by decide⟩

/-- Witness for C7: the timeout flush applied to a concrete open run. -/
theorem recorder_timeout_flush_witness :
    ([0x31] : List Nat) ≠ []
    ∧ record_streams_go [] ⟨.Node, [0x31], 0⟩ [.elapsed]
        = record_streams_go (write_packet_time [] [0x31] .Node 0) ⟨.Node, [], 0⟩ [] :=
  ⟨by decide, recorder_timeout_flush.1 [] ⟨.Node, [0x31], 0⟩ [] (by decide)⟩

section StagingBuffer

/-- `UartBuf` from the firmware staging buffer: a fixed 20-byte backing
array, a read cursor, and the count of unconsumed bytes; the content is
`data[read_pos .. read_pos + len]`. -/
structure UartBuf where
  len : Nat
  read_pos : Nat
  data : List Nat
deriving DecidableEq

/-- `UartBuf::new()`. -/
def UartBuf.new : UartBuf :=
  { len := 0, read_pos := 0, data := List.replicate 20 0 }

/-- `UartBuf::consume`: advance the cursor by at most `len` bytes. -/
def UartBuf.consume (b : UartBuf) (n : Nat) : UartBuf :=
  let n := min n b.len
  { b with read_pos := b.read_pos + n, len := b.len - n }

/-- `UartBuf::tail_capacity` (`usize` subtraction; under the buffer
invariant `read_pos + len ≤ 20` the truncated `Nat` subtraction agrees). -/
def UartBuf.tail_capacity (b : UartBuf) : Nat :=
  b.data.length - (b.read_pos + b.len)

/-- `slice::copy_within(s..e, 0)`: a panic (`none`) unless `s ≤ e ≤ len`;
otherwise `data[s..e]` is copied to offset 0, the rest unchanged. -/
def copyWithin (data : List Nat) (s e : Nat) : Option (List Nat) :=
  if s ≤ e ∧ e ≤ data.length then
    some ((data.drop s).take (e - s) ++ data.drop (e - s))
  else none

/-- The state mutation of `UartBuf::tail_slice` (the returned `&mut` slice
starts at `read_pos + len`): reset the cursor when empty; when the total
spare capacity (tail plus consumed prefix) is short, first drop the oldest
bytes via `consume`; when the tail alone is short, compact via
`copy_within(read_pos..len, 0)` — the range exactly as in the source. -/
def UartBuf.tail_slice (b : UartBuf) (min_cap : Nat) : Option UartBuf :=
  let b := if b.len = 0 then { b with read_pos := 0 } else b
  let tail_cap := b.tail_capacity
  let tot_spare_cap := tail_cap + b.read_pos
  let b := if tot_spare_cap < min_cap then b.consume (min_cap - tot_spare_cap) else b
  if tail_cap < min_cap then
    (copyWithin b.data b.read_pos b.len).map (fun d => { b with data := d })
  else some b

/-- `UartBuf::incr_len`: grow `len` by at most the tail capacity. -/
def UartBuf.incr_len (b : UartBuf) (new : Nat) : UartBuf :=
  { b with len := b.len + min b.tail_capacity new }

/-- `UartBuf::write`: keep the trailing bytes that fit the array, take the
tail slice, copy into its first `data.len()` bytes (`[0..data.len()]` is an
index panic when the tail slice is shorter), then `incr_len`. -/
def UartBuf.write (b : UartBuf) (data : List Nat) : Option UartBuf :=
  let data := if data.length > b.data.length
    then data.drop (data.length - b.data.length) else data
  match b.tail_slice data.length with
  | none => none
  | some b₂ =>
    let wr_pos := b₂.read_pos + b₂.len
    if wr_pos + data.length ≤ b₂.data.length then
      some ((UartBuf.mk b₂.len b₂.read_pos
        (b₂.data.take wr_pos ++ data ++ b₂.data.drop (wr_pos + data.length))).incr_len
          data.length)
    else none

end StagingBuffer

/-- Claim C4 is contradicted by the code: an append that needs compaction
panics instead of compacting.  From the empty buffer: `write` 15 bytes,
`consume` 10, then `write` 10 more — the tail holds 5 bytes but the total
free space is 15, so the claim demands a successful compacted append
dropping nothing; the code reaches `copy_within(10..5, 0)`, a reversed
slice range, and panics.  Filling the buffer and appending likewise panics
(at the `[0..data.len()]` indexing) because compaction never resets
`read_pos`, so the tail never grows. -/
theorem uartbuf_write_compaction_panics :
    UartBuf.new.write (List.replicate 15 1)
      = some ⟨15, 0, List.replicate 15 1 ++ List.replicate 5 0⟩
    ∧ (UartBuf.new.write (List.replicate 15 1)).bind
        (fun b => (b.consume 10).write (List.replicate 10 2)) = none
    ∧ (UartBuf.new.write (List.replicate 20 1)).bind
        (fun b => b.write (List.replicate 5 2)) = none := by
  refine ⟨by decide, by decide, by decide⟩

/-- Witness for C3 (amended): a buffer of only marker bytes emits no run and
stays buffered. -/
theorem mux_demux_segmentation_witness :
    ([TRIG_BYTE].all (fun b => b == TRIG_BYTE) = true)
    ∧ processMuxed [TRIG_BYTE] = ([], [TRIG_BYTE]) :=
  ⟨by decide, (mux_demux_segmentation [TRIG_BYTE]).2.2.2 (by decide)⟩
